import Mathlib

/-!
Verification of the transcript-to-minutes pipeline of `zoom-ai-minuter`.

Shallow embedding notes.
* JS strings are modelled as `List Char` where character-level index
  arithmetic matters (chunking, caption parsing) and as Lean `String`
  where the code treats them opaquely (topic records, job records).
* JS `number` positions are modelled as `Int` (they can go negative in
  the chunking loop); `substring`/`indexOf` clamp exactly as in JS.
* External effects (the text-generation client, the KV store clock,
  `Math.random`) are modelled as explicit parameters; theorems quantify
  over them.
* Possibly-diverging loops are modelled with an explicit fuel parameter
  returning `Option`; `none` means the loop has not finished within the
  given fuel.
-/

/-- JS `String.prototype.trim`: drop whitespace on both ends. -/
def jsTrim (s : List Char) : List Char :=
  ((s.dropWhile Char.isWhitespace).reverse.dropWhile Char.isWhitespace).reverse

/-- JS `a.includes(b)` for one needle character list inside another:
`true` iff `needle` occurs as a contiguous sublist (the empty needle
always occurs). -/
def containsSub (hay needle : List Char) : Bool :=
  match hay with
  | [] => needle.isEmpty
  | _ :: t => needle.isPrefixOf hay || containsSub t needle

/-- Structural worker for `splitOnLit`: every step consumes at least
one character, so `length + 1` fuel always suffices. -/
def splitOnLitFuel (c : Char) (cs : List Char) : Nat → List Char → List (List Char)
  | 0, _ => [[]]
  | _ + 1, [] => [[]]
  | fuel + 1, x :: t =>
    if (c :: cs).isPrefixOf (x :: t) then
      [] :: splitOnLitFuel c cs fuel (t.drop cs.length)
    else
      match splitOnLitFuel c cs fuel t with
      | [] => [[x]]
      | h :: r => (x :: h) :: r

/-- JS `s.split(sep)` for a non-empty literal separator `c :: cs`:
pieces between non-overlapping left-to-right occurrences of the
separator. -/
def splitOnLit (c : Char) (cs : List Char) (s : List Char) : List (List Char) :=
  splitOnLitFuel c cs (s.length + 1) s

/-- JS `parts.join(sep)` for a one-character separator. -/
def joinWith (c : Char) : List (List Char) → List Char
  | [] => []
  | [p] => p
  | p :: q :: r => p ++ c :: joinWith c (q :: r)

/-- JS `String.prototype.substring(start, end)`: both arguments are
clamped to `[0, length]` and swapped when `start > end`. -/
def jsSubstring (s : List Char) (start finish : Int) : List Char :=
  let len : Int := s.length
  let a := min (max start 0) len
  let b := min (max finish 0) len
  let lo := min a b
  let hi := max a b
  (s.drop lo.toNat).take (hi - lo).toNat

/-- Index search used by `jsIndexOfCharFrom`: position of the first
occurrence of `c`, offset by the accumulator `i`. -/
def findCharIdx (c : Char) : List Char → Nat → Option Nat
  | [], _ => none
  | x :: xs, i => if x = c then some i else findCharIdx c xs (i + 1)

/-- JS `s.indexOf(c, from)` for a one-character search string: the
`fromIndex` is clamped below by `0` (an index past the end finds
nothing), and `-1` signals absence. -/
def jsIndexOfCharFrom (s : List Char) (c : Char) (pos : Int) : Int :=
  let start := (max pos 0).toNat
  match findCharIdx c (s.drop start) start with
  | some i => (i : Int)
  | none => -1

lemma dropWhile_length_le {α : Type} (p : α → Bool) (l : List α) :
    (l.dropWhile p).length ≤ l.length := by
  induction l with
  | nil => simp
  | cons c t ih =>
    rw [List.dropWhile_cons]
    by_cases h : p c
    · simp only [h, if_true]
      simp only [List.length_cons]
      omega
    · simp [h]

lemma tail_dropWhile_lt {α : Type} (p : α → Bool) (l : List α) :
    (l.dropWhile p).tail.length < l.length + 1 := by
  have h1 := dropWhile_length_le p l
  have h2 := List.length_tail (l.dropWhile p)
  omega

lemma findCharIdx_bounds {c : Char} :
    ∀ (l : List Char) (i j : Nat), findCharIdx c l i = some j →
      i ≤ j ∧ j < i + l.length := by
  intro l
  induction l with
  | nil => intro i j h; simp [findCharIdx] at h
  | cons x xs ih =>
    intro i j h
    simp only [List.length_cons]
    by_cases hx : x = c
    · simp [findCharIdx, hx] at h
      omega
    · simp only [findCharIdx, hx, if_false] at h
      have := ih (i + 1) j h
      omega

/-- Any found index is a real index of the list: it is `< s.length`. -/
lemma jsIndexOfCharFrom_lt_length (s : List Char) (c : Char) (pos : Int) :
    jsIndexOfCharFrom s c pos = -1 ∨ jsIndexOfCharFrom s c pos < (s.length : Int) := by
  unfold jsIndexOfCharFrom
  cases h : findCharIdx c (s.drop (max pos 0).toNat) (max pos 0).toNat with
  | none => left; simp [h]
  | some i =>
    right
    have hb := findCharIdx_bounds (s.drop (max pos 0).toNat) (max pos 0).toNat i h
    have hd : (s.drop (max pos 0).toNat).length = s.length - (max pos 0).toNat :=
      List.length_drop _ s
    have hi : i < s.length := by omega
    simp only [h]
    exact_mod_cast hi

/-! ### ChunkPlanner — `splitTextIntoChunks` (src/features/summarization/usecase.ts) -/

/-- `TextChunk` from src/features/summarization/domain.ts. Only `id` and
`text` are ever written by the chunker; the remaining fields are the
optional members of the TS interface. -/
structure TextChunk where
  id : Int
  text : List Char
  startTime : Option String
  endTime : Option String
  speakers : Option (List String)
deriving DecidableEq, Repr

/-- The optional `{chunkSize?, chunkOverlap?}` options object. -/
structure ChunkOptions where
  chunkSize : Option Int
  chunkOverlap : Option Int
deriving DecidableEq, Repr

/-- `AI_MODEL_LIMITS.defaultChunkSize` (domain.ts). -/
def defaultChunkSize : Int := 8000

/-- `AI_MODEL_LIMITS.defaultChunkOverlap` (domain.ts). -/
def defaultChunkOverlap : Int := 500

/-- JS `v || d` on an optional number: `undefined` and the falsy `0`
both select the default. -/
def jsOrDefault (v : Option Int) (d : Int) : Int :=
  match v with
  | some n => if n = 0 then d else n
  | none => d

/-- The body of the `while (startPos < text.length)` loop of
`splitTextIntoChunks`, with an explicit fuel: `none` means the loop has
not terminated within `fuel` iterations. Each iteration computes the
nominal end `startPos + chunkSize`, caps it at `text.length`, otherwise
snaps it to a sentence terminator `'.'` or a newline found in the
`[endPos - 100, endPos + 200)` window, pushes
`text.substring(startPos, endPos)` and restarts at
`endPos - chunkOverlap`. -/
def splitChunksLoop (text : List Char) (chunkSize chunkOverlap : Int) :
    Nat → Int → Int → List TextChunk → Option (List TextChunk)
  | 0, _, _, _ => none
  | Nat.succ fuel, startPos, chunkId, chunks =>
    if startPos < (text.length : Int) then
      let endPos0 := startPos + chunkSize
      let endPos :=
        if endPos0 > (text.length : Int) then (text.length : Int)
        else
          let nextPeriodPos := jsIndexOfCharFrom text '.' (endPos0 - 100)
          let nextNewlinePos := jsIndexOfCharFrom text '\n' (endPos0 - 100)
          if nextPeriodPos > 0 ∧ nextPeriodPos < endPos0 + 200 then nextPeriodPos + 1
          else if nextNewlinePos > 0 ∧ nextNewlinePos < endPos0 + 200 then nextNewlinePos + 1
          else endPos0
      splitChunksLoop text chunkSize chunkOverlap fuel (endPos - chunkOverlap) (chunkId + 1)
        (chunks ++ [{ id := chunkId, text := jsSubstring text startPos endPos,
                      startTime := none, endTime := none, speakers := none }])
    else some chunks

/-- `splitTextIntoChunks(text, options)` (usecase.ts lines 38-78),
fuel-instrumented. `chunkSize`/`chunkOverlap` default through JS `||`,
so an explicit `0` also selects the default. -/
def splitTextIntoChunks (fuel : Nat) (text : List Char) (options : Option ChunkOptions) :
    Option (List TextChunk) :=
  let chunkSize := jsOrDefault (options.bind ChunkOptions.chunkSize) defaultChunkSize
  let chunkOverlap := jsOrDefault (options.bind ChunkOptions.chunkOverlap) defaultChunkOverlap
  splitChunksLoop text chunkSize chunkOverlap fuel 0 0 []

/-- Every iteration of the loop computes an end position `≤ text.length`
(the cap handles the overshoot case, and a snapped position is a real
index plus one). Hence the restart position `endPos - chunkOverlap`
stays `< text.length` whenever `chunkOverlap ≥ 1`, and the loop never
reaches its exit condition: it runs out of any amount of fuel. -/
lemma splitChunksLoop_eq_none (text : List Char) (chunkSize chunkOverlap : Int)
    (hov : 1 ≤ chunkOverlap) :
    ∀ (fuel : Nat) (startPos chunkId : Int) (chunks : List TextChunk),
      startPos < (text.length : Int) →
      splitChunksLoop text chunkSize chunkOverlap fuel startPos chunkId chunks = none := by
  intro fuel
  induction fuel with
  | zero => intro startPos chunkId chunks _; rfl
  | succ fuel ih =>
    intro startPos chunkId chunks hlt
    rw [splitChunksLoop, if_pos hlt]
    apply ih
    -- the recursive start position is endPos - chunkOverlap with endPos ≤ length
    by_cases hcap : startPos + chunkSize > (text.length : Int)
    · simp only [hcap, if_true]
      omega
    · simp only [hcap, if_false]
      rcases jsIndexOfCharFrom_lt_length text '.' (startPos + chunkSize - 100) with hp | hp <;>
        rcases jsIndexOfCharFrom_lt_length text '\n' (startPos + chunkSize - 100) with hn | hn <;>
        split_ifs <;> omega

/-- C1, code_bug record: for every non-empty input text and every
explicitly supplied configuration `{chunkSize, chunkOverlap: o}` with
`0 ≤ o` (in particular the claim's range `0 ≤ o < chunkSize`),
`splitTextIntoChunks` never terminates: the effective overlap is `≥ 1`
(`o || 500` maps `0` to the default `500`), so after the final capped
chunk the loop restarts at `text.length - overlap < text.length` and
re-appends the last window forever. The claim's terminating,
gap-free covering is the documented intent (spec §4.2, §8); the code
lacks a loop exit once `endPos` reaches `text.length`. -/
theorem splitTextIntoChunks_diverges (text : List Char) (cs o : Int) (fuel : Nat)
    (hne : text ≠ []) (ho : 0 ≤ o) :
    splitTextIntoChunks fuel text (some { chunkSize := some cs, chunkOverlap := some o }) =
      none := by
  have hlen : 0 < text.length := List.length_pos.mpr hne
  have hov : 1 ≤ jsOrDefault (some o) defaultChunkOverlap := by
    simp only [jsOrDefault, defaultChunkOverlap]
    split_ifs <;> omega
  unfold splitTextIntoChunks
  apply splitChunksLoop_eq_none _ _ _ hov
  exact_mod_cast hlen

/-- Witness for C1's theorem at a concrete input: a one-character text
with `chunkSize = 2`, `chunkOverlap = 1` already never terminates. -/
theorem splitTextIntoChunks_diverges_witness :
    splitTextIntoChunks 5 ['a'] (some { chunkSize := some 2, chunkOverlap := some 1 }) =
      none :=
  splitTextIntoChunks_diverges ['a'] 2 1 5 (by decide) (by decide)

/-- C6, code_bug record: the end-to-end scenario's very first step
already fails. For a 20,000-character transcript with
`chunkSize = 8000, chunkOverlap = 500` the chunker does not return 3
chunks — it does not return at all: after pushing `[0,8000)`,
`[7500,15500)`, `[15000,20000)` it restarts at `19500 < 20000` and
pushes the window `[19500,20000)` forever. -/
theorem splitTextIntoChunks_20000_diverges (fuel : Nat) :
    splitTextIntoChunks fuel (List.replicate 20000 'a')
      (some { chunkSize := some 8000, chunkOverlap := some 500 }) = none := by
  unfold splitTextIntoChunks
  apply splitChunksLoop_eq_none
  · simp [jsOrDefault]
  · rw [List.length_replicate]
    norm_num

/-! ### JobStateMachine — `initializeJob` / `updateJob`
(src/features/job/domain.ts, src/features/job/usecase.ts).

The KV-backed `updateJob` is a read-modify-write: it loads the current
`JobData`, runs the updater closure of usecase.ts lines 465-497 and
stores the result. The closure is pure given the current record, the
partial update and the clock value `new Date().toISOString()`; it is
embedded as `updateJobData` below, with the clock as a parameter.
Optional TS fields are `Option`s; a `some` in the update request means
the key is present and therefore wins in the `{...currentData,
...updateJobRequest}` spread. -/

/-- `JobStatus` (job/domain.ts). -/
inductive JobStatus where
  | PENDING
  | PROCESSING
  | COMPLETED
  | FAILED
  | SKIPPED
deriving DecidableEq, Repr

/-- `MeetingCategory` (job/domain.ts and classification/domain.ts). -/
inductive MeetingCategory where
  | INTERNAL_MEETING
  | SMALL_TALK
  | PRIVATE
  | OTHER
deriving DecidableEq, Repr

/-- `RecordingFile` (job/domain.ts). -/
structure RecordingFile where
  id : String
  file_type : String
  recording_type : String
  download_url : String
  status : String
  recording_start : String
  recording_end : String
  file_name : Option String
deriving DecidableEq, Repr

/-- `ZoomObject` (job/domain.ts). -/
structure ZoomObject where
  uuid : String
  id : String
  topic : String
  host_id : String
  start_time : String
  duration : Int
  recording_files : Option (List RecordingFile)
deriving DecidableEq, Repr

/-- The `payload` member of `JobData`. -/
structure JobPayload where
  object : ZoomObject
deriving DecidableEq, Repr

/-- `JobData` (job/domain.ts). -/
structure JobData where
  jobId : String
  createdAt : String
  payload : JobPayload
  downloadToken : String
  status : JobStatus
  processingStartedAt : Option String
  completedAt : Option String
  category : Option MeetingCategory
  reason : Option String
  notionPageId : Option String
  notionPageUrl : Option String
  error : Option String
deriving DecidableEq, Repr

/-- `CreateJobRequest` (job/domain.ts). -/
structure CreateJobRequest where
  payload : JobPayload
  downloadToken : String
deriving DecidableEq, Repr

/-- `UpdateJobRequest` (job/domain.ts): every field optional; `some`
models a key present on the JS object. -/
structure UpdateJobRequest where
  status : Option JobStatus
  category : Option MeetingCategory
  reason : Option String
  notionPageId : Option String
  notionPageUrl : Option String
  error : Option String
  processingStartedAt : Option String
  completedAt : Option String
deriving DecidableEq, Repr

/-- A request that only sets `status` (the shape issued by
`updateJobStatus` and by the pipeline's own transitions). -/
def statusOnlyRequest (s : JobStatus) : UpdateJobRequest :=
  { status := some s, category := none, reason := none, notionPageId := none,
    notionPageUrl := none, error := none, processingStartedAt := none, completedAt := none }

/-- `initializeJob(jobId, createJobRequest)` (job/domain.ts lines
353-361); `now` models `new Date().toISOString()`. Only the five listed
keys are present: every optional field starts absent. -/
def initializeJob (now : String) (jobId : String) (req : CreateJobRequest) : JobData :=
  { jobId := jobId
    createdAt := now
    payload := req.payload
    downloadToken := req.downloadToken
    status := JobStatus.PENDING
    processingStartedAt := none
    completedAt := none
    category := none
    reason := none
    notionPageId := none
    notionPageUrl := none
    error := none }

/-- JS spread merge of one optional key: a key present on the update
object overrides the current value. -/
def mergeField {α : Type} (updated current : Option α) : Option α :=
  match updated with
  | some v => some v
  | none => current

/-- The updater closure of `updateJob` (job/usecase.ts lines 465-497):
stamp `processingStartedAt` when the requested status is `PROCESSING`
and the current one is not; stamp `completedAt` when the requested
status is terminal (`COMPLETED`/`FAILED`/`SKIPPED`) and the current one
is not terminal; then apply the spread
`{...currentData, ...updateJobRequest}`. -/
def updateJobData (now : String) (current : JobData) (req : UpdateJobRequest) : JobData :=
  let req1 :=
    if req.status = some JobStatus.PROCESSING ∧ current.status ≠ JobStatus.PROCESSING then
      { req with processingStartedAt := some now }
    else req
  let req2 :=
    if (req1.status = some JobStatus.COMPLETED ∨ req1.status = some JobStatus.FAILED ∨
          req1.status = some JobStatus.SKIPPED) ∧
        current.status ≠ JobStatus.COMPLETED ∧ current.status ≠ JobStatus.FAILED ∧
        current.status ≠ JobStatus.SKIPPED then
      { req1 with completedAt := some now }
    else req1
  { jobId := current.jobId
    createdAt := current.createdAt
    payload := current.payload
    downloadToken := current.downloadToken
    status := (mergeField req2.status (some current.status)).getD current.status
    processingStartedAt := mergeField req2.processingStartedAt current.processingStartedAt
    completedAt := mergeField req2.completedAt current.completedAt
    category := mergeField req2.category current.category
    reason := mergeField req2.reason current.reason
    notionPageId := mergeField req2.notionPageId current.notionPageId
    notionPageUrl := mergeField req2.notionPageUrl current.notionPageUrl
    error := mergeField req2.error current.error }

/-- A sequence of `updateJob` calls against the same job record, each
with its own clock value. -/
def runJobUpdates (j : JobData) (updates : List (String × UpdateJobRequest)) : JobData :=
  updates.foldl (fun cur u => updateJobData u.1 cur u.2) j

/-- The concrete retry history used to refute C2. -/
def retryHistoryJob : JobData :=
  runJobUpdates
    (initializeJob "t0" "job-1"
      { payload := { object := { uuid := "u", id := "1", topic := "m", host_id := "h",
                                 start_time := "s", duration := 30,
                                 recording_files := none } },
        downloadToken := "tok" })
    [("t1", statusOnlyRequest JobStatus.PROCESSING),
     ("t2", { statusOnlyRequest JobStatus.FAILED with error := some "boom" }),
     ("t3", statusOnlyRequest JobStatus.PROCESSING),
     ("t4", statusOnlyRequest JobStatus.FAILED)]

/-- C2, counterexample: the claim says `processingStartedAt` is stamped
only the first time `PROCESSING` is ever entered (here `"t1"`) and that
re-entering a terminal state — e.g. `FAILED` after a retry — never
re-stamps `completedAt` (first terminal entry here `"t2"`). On the
history PENDING →(t1) PROCESSING →(t2) FAILED →(t3) PROCESSING →(t4)
FAILED the code re-stamps both: the guard only compares against the
current status, not against whether the state was ever entered before. -/
theorem updateJob_restamps_on_retry :
    retryHistoryJob.processingStartedAt = some "t3" ∧
      retryHistoryJob.processingStartedAt ≠ some "t1" ∧
      retryHistoryJob.completedAt = some "t4" ∧
      retryHistoryJob.completedAt ≠ some "t2" := by
  refine ⟨rfl, ?_, rfl, ?_⟩ <;> decide

/-- C2 as amended: for any update request that does not itself carry a
timestamp key (the shape every caller in the repository issues),
`processingStartedAt` is overwritten with the clock exactly when the
requested status is `PROCESSING` and the current status is not
`PROCESSING`, and `completedAt` is overwritten exactly when the
requested status is terminal and the current status is not terminal;
otherwise both fields are left unchanged. In particular a repeated
`{status: PROCESSING}` does not re-stamp, and a direct
terminal-to-terminal update (e.g. `FAILED` right after `COMPLETED`)
does not re-stamp — but leaving `PROCESSING` and re-entering it, or
reaching a terminal state again after a retry through `PROCESSING`,
stamps anew. -/
theorem updateJob_stamp_iff (now : String) (current : JobData) (req : UpdateJobRequest)
    (hp : req.processingStartedAt = none) (hc : req.completedAt = none) :
    (updateJobData now current req).processingStartedAt =
      (if req.status = some JobStatus.PROCESSING ∧ current.status ≠ JobStatus.PROCESSING
        then some now else current.processingStartedAt) ∧
    (updateJobData now current req).completedAt =
      (if (req.status = some JobStatus.COMPLETED ∨ req.status = some JobStatus.FAILED ∨
            req.status = some JobStatus.SKIPPED) ∧
          current.status ≠ JobStatus.COMPLETED ∧ current.status ≠ JobStatus.FAILED ∧
          current.status ≠ JobStatus.SKIPPED
        then some now else current.completedAt) := by
  by_cases h1 : req.status = some JobStatus.PROCESSING ∧
      current.status ≠ JobStatus.PROCESSING <;>
    by_cases h2 : (req.status = some JobStatus.COMPLETED ∨
          req.status = some JobStatus.FAILED ∨ req.status = some JobStatus.SKIPPED) ∧
        current.status ≠ JobStatus.COMPLETED ∧ current.status ≠ JobStatus.FAILED ∧
        current.status ≠ JobStatus.SKIPPED <;>
    simp [updateJobData, h1, h2, mergeField, hp, hc]

/-- Witness for the amended C2 theorem: a `PENDING` job receiving
`{status: PROCESSING}` at clock `"t9"` gets `processingStartedAt = some
"t9"` and keeps `completedAt` absent. -/
theorem updateJob_stamp_iff_witness :
    (updateJobData "t9"
        (initializeJob "t0" "job-w"
          { payload := { object := { uuid := "u", id := "1", topic := "m", host_id := "h",
                                     start_time := "s", duration := 30,
                                     recording_files := none } },
            downloadToken := "tok" })
        (statusOnlyRequest JobStatus.PROCESSING)).processingStartedAt = some "t9" := by
  have h := updateJob_stamp_iff "t9"
    (initializeJob "t0" "job-w"
      { payload := { object := { uuid := "u", id := "1", topic := "m", host_id := "h",
                                 start_time := "s", duration := 30,
                                 recording_files := none } },
        downloadToken := "tok" })
    (statusOnlyRequest JobStatus.PROCESSING) rfl rfl
  rw [h.1]
  decide

/-! ### TopicExtractor and TimelineAggregator
(src/features/summarization/usecase.ts).

The Gemini client is the external text-generation boundary: it is
modelled as a function parameter (`gen`), universally quantified in the
theorems, so every possible external response is covered. `Promise.all`
returns its results in input order by definition, independent of
completion order; the batched loop below is that order-preserving
semantics. -/

/-- `MeetingTopic` (summarization/domain.ts). -/
structure MeetingTopic where
  id : Int
  title : String
  startTime : String
  endTime : String
  speakers : List String
  summary : String
  keyPoints : List String
deriving DecidableEq, Repr

/-- `MeetingTimeline` (summarization/domain.ts). -/
structure MeetingTimeline where
  topics : List MeetingTopic
  rawMarkdown : String
deriving DecidableEq, Repr

/-- `analyzeTopicFromChunk` (usecase.ts lines 124-145): one external
call per chunk; the response object is spread and its `id` overwritten
with the source chunk's id. `gen` models
`generateJson(generateTopicAnalysisPrompt(chunk, options))`. -/
def analyzeTopicFromChunk (gen : TextChunk → MeetingTopic) (chunk : TextChunk) : MeetingTopic :=
  { gen chunk with id := chunk.id }

/-- `analyzeAllTopics` (usecase.ts lines 154-179): the chunk list is
processed in `slice(i, i + 3)` batches (`maxConcurrent = 3`); each
batch is dispatched through `Promise.all`, whose result array is in
batch order, and appended to the accumulator before the next batch
starts. -/
def analyzeAllTopics (gen : TextChunk → MeetingTopic) : List TextChunk → List MeetingTopic
  | [] => []
  | c :: rest =>
    ((c :: rest).take 3).map (analyzeTopicFromChunk gen) ++
      analyzeAllTopics gen ((c :: rest).drop 3)
termination_by l => l.length
decreasing_by simp only [List.length_drop, List.length_cons]; omega

/-- The batched loop is the plain order-preserving map over chunks. -/
theorem analyzeAllTopics_eq_map (gen : TextChunk → MeetingTopic) :
    ∀ chunks, analyzeAllTopics gen chunks = chunks.map (analyzeTopicFromChunk gen)
  | [] => by simp [analyzeAllTopics]
  | c :: rest => by
    rw [analyzeAllTopics, analyzeAllTopics_eq_map gen ((c :: rest).drop 3), ← List.map_append,
      List.take_append_drop]
termination_by chunks => chunks.length
decreasing_by simp only [List.length_drop, List.length_cons]; omega

/-- C4, confirmed: for every external response function and every chunk
list, `analyzeAllTopics` returns exactly one topic per chunk, in input
order (it is the map of the per-chunk analysis over the input), and the
topic at each position carries its source chunk's id — whatever id the
external response reports (`gen` is arbitrary). -/
theorem analyzeAllTopics_spec (gen : TextChunk → MeetingTopic) (chunks : List TextChunk) :
    analyzeAllTopics gen chunks = chunks.map (analyzeTopicFromChunk gen) ∧
      (analyzeAllTopics gen chunks).length = chunks.length ∧
      (analyzeAllTopics gen chunks).map MeetingTopic.id = chunks.map TextChunk.id ∧
      ∀ chunk, (analyzeTopicFromChunk gen chunk).id = chunk.id := by
  have h := analyzeAllTopics_eq_map gen chunks
  refine ⟨h, by rw [h, List.length_map], ?_, fun _ => rfl⟩
  rw [h, List.map_map]
  exact List.map_congr_left fun c _ => rfl

/-- Lexicographic three-way comparison of character lists: the sign
convention of a JS comparator. -/
def charListCompare : List Char → List Char → Int
  | [], [] => 0
  | [], _ :: _ => -1
  | _ :: _, [] => 1
  | a :: as, b :: bs =>
    if a < b then -1 else if b < a then 1 else charListCompare as bs

/-- Sign of JS `a.localeCompare(b)`, modelled as code-unit
lexicographic comparison (the compared values are zero-padded
`HH:MM:SS`-style ASCII strings, for which the default locale collation
and code-unit order agree). -/
def jsLocaleCompare (a b : String) : Int :=
  charListCompare a.data b.data

/-- The non-strict "sorts before" relation induced by the comparator on
strings: lexicographically less than or equal. -/
def lexLE (a b : String) : Prop := jsLocaleCompare a b ≤ 0

instance : DecidableRel lexLE := fun a b =>
  inferInstanceAs (Decidable (jsLocaleCompare a b ≤ 0))

/-- The comparator of `generateTimelineFromTopics` (usecase.ts lines
195-201): `startTime.localeCompare` when both start times are truthy
(non-empty), otherwise `a.id - b.id`. Note it returns `0` — not an id
comparison — for equal non-empty start times. -/
def compareTopics (a b : MeetingTopic) : Int :=
  if a.startTime ≠ "" ∧ b.startTime ≠ "" then jsLocaleCompare a.startTime b.startTime
  else a.id - b.id

/-- `compareTopics a b ≤ 0`: the "keep `a` before `b`" relation of the
JS sort. -/
def topicLE (a b : MeetingTopic) : Prop := compareTopics a b ≤ 0

instance : DecidableRel topicLE := fun a b =>
  inferInstanceAs (Decidable (compareTopics a b ≤ 0))

/-- `[...topics].sort(comparator)`: `Array.prototype.sort` is stable
(ES2019), modelled by stable insertion sort on the non-strict
comparator relation. -/
def jsSortTopics (topics : List MeetingTopic) : List MeetingTopic :=
  topics.insertionSort topicLE

/-- `generateTimelineFromTopics` (usecase.ts lines 187-219): sort a
copy of the topics, render markdown through the external call
(`gen` models `generateText(generateTimelineIntegrationPrompt(sortedTopics))`),
and return both. -/
def generateTimelineFromTopics (gen : List MeetingTopic → String)
    (topics : List MeetingTopic) : MeetingTimeline :=
  let sortedTopics := jsSortTopics topics
  { topics := sortedTopics, rawMarkdown := gen sortedTopics }

lemma charListCompare_self : ∀ a : List Char, charListCompare a a = 0
  | [] => rfl
  | c :: t => by simp [charListCompare, lt_irrefl, charListCompare_self t]

lemma charListCompare_total : ∀ a b : List Char,
    charListCompare a b ≤ 0 ∨ charListCompare b a ≤ 0 := by
  intro a
  induction a with
  | nil => intro b; cases b <;> simp [charListCompare]
  | cons c t ih =>
    intro b
    cases b with
    | nil => simp [charListCompare]
    | cons d u =>
      by_cases h1 : c < d
      · left; simp [charListCompare, h1]
      · by_cases h2 : d < c
        · right; simp [charListCompare, h2]
        · rcases ih u with h | h
          · left; simp [charListCompare, h1, h2, h]
          · right; simp [charListCompare, h1, h2, h]

lemma charListCompare_trans : ∀ a b c : List Char,
    charListCompare a b ≤ 0 → charListCompare b c ≤ 0 → charListCompare a c ≤ 0 := by
  intro a
  induction a with
  | nil => intro b c _ _; cases c <;> simp [charListCompare]
  | cons x t ih =>
    intro b c hab hbc
    cases b with
    | nil => simp [charListCompare] at hab
    | cons y u =>
      cases c with
      | nil => simp [charListCompare] at hbc
      | cons z v =>
        simp only [charListCompare] at hab hbc ⊢
        by_cases hxy : x < y
        · by_cases hyz : y < z
          · simp [lt_trans hxy hyz]
          · by_cases hzy : z < y
            · simp [hyz, hzy] at hbc
            · have hy : y = z := le_antisymm (not_lt.mp hzy) (not_lt.mp hyz)
              simp [hy ▸ hxy]
        · by_cases hyx : y < x
          · simp [hxy, hyx] at hab
          · have hx : x = y := le_antisymm (not_lt.mp hyx) (not_lt.mp hxy)
            subst hx
            simp only [lt_irrefl, if_false] at hab
            by_cases hxz : x < z
            · simp [hxz]
            · by_cases hzx : z < x
              · simp [hxz, hzx] at hbc
              · simp only [hxz, hzx, if_false] at hbc ⊢
                exact ih u v hab hbc

lemma lexLE_total (a b : String) : lexLE a b ∨ lexLE b a :=
  charListCompare_total a.data b.data

lemma lexLE_trans {a b c : String} (h1 : lexLE a b) (h2 : lexLE b c) : lexLE a c :=
  charListCompare_trans a.data b.data c.data h1 h2

lemma topicLE_iff_startTime {a b : MeetingTopic} (ha : a.startTime ≠ "")
    (hb : b.startTime ≠ "") : topicLE a b ↔ lexLE a.startTime b.startTime := by
  unfold topicLE compareTopics lexLE
  rw [if_pos ⟨ha, hb⟩]

/-- A relation holding for every ordered pair of members holds
pairwise. -/
lemma pairwise_of_forall_mem {α : Type} {r : α → α → Prop} :
    ∀ {l : List α}, (∀ a ∈ l, ∀ b ∈ l, r a b) → l.Pairwise r
  | [], _ => List.Pairwise.nil
  | x :: t, h =>
    List.Pairwise.cons
      (fun b hb => h x (List.mem_cons_self x t) b (List.mem_cons_of_mem x hb))
      (pairwise_of_forall_mem fun a ha b hb =>
        h a (List.mem_cons_of_mem x ha) b (List.mem_cons_of_mem x hb))

lemma topicLE_iff_id {a b : MeetingTopic} (ha : a.startTime = "") :
    topicLE a b ↔ a.id ≤ b.id := by
  unfold topicLE compareTopics
  rw [if_neg (by simp [ha])]
  omega

/-- `orderedInsert` keeps a list sorted, for a relation that is only
total and transitive on the elements involved (the JS comparator is not
a consistent order on all of `MeetingTopic`). -/
lemma sorted_orderedInsert_local {α : Type} (r : α → α → Prop) [DecidableRel r] (a : α) :
    ∀ l : List α,
      (∀ b ∈ l, r a b ∨ r b a) →
      (∀ b ∈ l, ∀ c ∈ l, r a b → r b c → r a c) →
      l.Sorted r → (l.orderedInsert r a).Sorted r := by
  intro l
  induction l with
  | nil => intro _ _ _; simp
  | cons b t ih =>
    intro htot htrans hs
    rw [List.orderedInsert]
    by_cases hab : r a b
    · rw [if_pos hab]
      refine List.sorted_cons.mpr ⟨?_, hs⟩
      intro c hc
      rcases List.mem_cons.mp hc with rfl | hct
      · exact hab
      · exact htrans b (List.mem_cons_self b t) c (List.mem_cons_of_mem b hct) hab
          (List.rel_of_sorted_cons hs c hct)
    · rw [if_neg hab]
      have hba : r b a := (htot b (List.mem_cons_self b t)).resolve_left hab
      refine List.sorted_cons.mpr ⟨?_, ?_⟩
      · intro c hc
        rcases (List.mem_orderedInsert r).mp hc with rfl | hct
        · exact hba
        · exact List.rel_of_sorted_cons hs c hct
      · exact ih (fun x hx => htot x (List.mem_cons_of_mem b hx))
          (fun x hx y hy => htrans x (List.mem_cons_of_mem b hx) y (List.mem_cons_of_mem b hy))
          (List.sorted_cons.mp hs).2

/-- `insertionSort` sorts, for a relation total and transitive on the
list's elements. -/
lemma sorted_insertionSort_local {α : Type} (r : α → α → Prop) [DecidableRel r] :
    ∀ l : List α,
      (∀ a ∈ l, ∀ b ∈ l, r a b ∨ r b a) →
      (∀ a ∈ l, ∀ b ∈ l, ∀ c ∈ l, r a b → r b c → r a c) →
      (l.insertionSort r).Sorted r := by
  intro l
  induction l with
  | nil => intro _ _; simp
  | cons a t ih =>
    intro htot htrans
    rw [List.insertionSort]
    have hmem : ∀ x, x ∈ t.insertionSort r → x ∈ a :: t := fun x hx =>
      List.mem_cons_of_mem a ((List.mem_insertionSort r).mp hx)
    apply sorted_orderedInsert_local
    · intro b hb
      exact htot a (List.mem_cons_self a t) b (hmem b hb)
    · intro b hb c hc hab hbc
      exact htrans a (List.mem_cons_self a t) b (hmem b hb) c (hmem c hc) hab hbc
    · exact ih
        (fun x hx y hy => htot x (List.mem_cons_of_mem a hx) y (List.mem_cons_of_mem a hy))
        (fun x hx y hy z hz => htrans x (List.mem_cons_of_mem a hx) y
          (List.mem_cons_of_mem a hy) z (List.mem_cons_of_mem a hz))

/-- First topic of the C3 counterexample: id 1, startTime 00:00:10. -/
def topicOne : MeetingTopic :=
  { id := 1, title := "A", startTime := "00:00:10", endTime := "00:01:00",
    speakers := [], summary := "", keyPoints := [] }

/-- Second topic of the C3 counterexample: id 0, same startTime. -/
def topicZero : MeetingTopic :=
  { id := 0, title := "B", startTime := "00:00:10", endTime := "00:02:00",
    speakers := [], summary := "", keyPoints := [] }

/-- C3, counterexample: two topics share the (usable) startTime
`"00:00:10"` and arrive in id order `[1, 0]`. The comparator returns
`localeCompare = 0` for them — it never consults the ids when both
start times are non-empty — and the stable sort keeps the input order,
so the output is `[id 1, id 0]`, not the id-tie-broken `[id 0, id 1]`
the claim requires. -/
theorem timeline_no_id_tiebreak :
    (generateTimelineFromTopics (fun _ => "") [topicOne, topicZero]).topics =
        [topicOne, topicZero] ∧
      topicOne.startTime = topicZero.startTime ∧
      topicOne.startTime ≠ "" ∧
      topicZero.id < topicOne.id ∧
      [topicOne, topicZero] ≠ [topicZero, topicOne] := by
  refine ⟨rfl, rfl, by decide, by decide, by decide⟩

/-- C3 as amended: the timeline's `topics` field is the stable JS sort
of the input by the source comparator. It is always a permutation of
the input; when every topic has a usable (non-empty) `startTime` it is
sorted lexicographically by `startTime`; when no topic has a usable
`startTime` it is sorted by chunk id (the comparator's fallback); and
topics with equal `startTime` keep their relative input order — the
stable sort applies no id tie-break (if all start times are equal the
output is exactly the input). -/
theorem generateTimelineFromTopics_order (gen : List MeetingTopic → String)
    (topics : List MeetingTopic) :
    ((generateTimelineFromTopics gen topics).topics).Perm topics ∧
      ((∀ t ∈ topics, t.startTime ≠ "") →
        ((generateTimelineFromTopics gen topics).topics).Sorted
          (fun a b => lexLE a.startTime b.startTime)) ∧
      ((∀ t ∈ topics, t.startTime = "") →
        ((generateTimelineFromTopics gen topics).topics).Sorted
          (fun a b => a.id ≤ b.id)) ∧
      ((∀ t ∈ topics, t.startTime ≠ "") →
        (∀ a ∈ topics, ∀ b ∈ topics, a.startTime = b.startTime) →
        (generateTimelineFromTopics gen topics).topics = topics) := by
  simp only [generateTimelineFromTopics, jsSortTopics]
  refine ⟨List.perm_insertionSort topicLE topics, ?_, ?_, ?_⟩
  · intro h
    have hs : (topics.insertionSort topicLE).Sorted topicLE := by
      apply sorted_insertionSort_local
      · intro a ha b hb
        rcases lexLE_total a.startTime b.startTime with hab | hba
        · exact Or.inl ((topicLE_iff_startTime (h a ha) (h b hb)).mpr hab)
        · exact Or.inr ((topicLE_iff_startTime (h b hb) (h a ha)).mpr hba)
      · intro a ha b hb c hc hab hbc
        exact (topicLE_iff_startTime (h a ha) (h c hc)).mpr
          (lexLE_trans ((topicLE_iff_startTime (h a ha) (h b hb)).mp hab)
            ((topicLE_iff_startTime (h b hb) (h c hc)).mp hbc))
    refine hs.imp_of_mem ?_
    intro a b ha hb hab
    exact (topicLE_iff_startTime (h a ((List.mem_insertionSort topicLE).mp ha))
      (h b ((List.mem_insertionSort topicLE).mp hb))).mp hab
  · intro h
    have hs : (topics.insertionSort topicLE).Sorted topicLE := by
      apply sorted_insertionSort_local
      · intro a ha b hb
        rcases le_total a.id b.id with hab | hba
        · exact Or.inl ((topicLE_iff_id (h a ha)).mpr hab)
        · exact Or.inr ((topicLE_iff_id (h b hb)).mpr hba)
      · intro a ha b hb c hc hab hbc
        exact (topicLE_iff_id (h a ha)).mpr
          (le_trans ((topicLE_iff_id (h a ha)).mp hab) ((topicLE_iff_id (h b hb)).mp hbc))
    refine hs.imp_of_mem ?_
    intro a b ha hb hab
    exact (topicLE_iff_id (h a ((List.mem_insertionSort topicLE).mp ha))).mp hab
  · intro hne heq
    apply List.Sorted.insertionSort_eq
    apply pairwise_of_forall_mem
    intro a ha b hb
    refine (topicLE_iff_startTime (hne a ha) (hne b hb)).mpr ?_
    rw [heq a ha b hb]
    unfold lexLE jsLocaleCompare
    rw [charListCompare_self]

/-- Witness for the amended C3 theorem on the two equal-startTime
topics: permutation, lexicographic sortedness, and preservation of the
input order all hold at `[topicOne, topicZero]`. -/
theorem generateTimelineFromTopics_order_witness :
    ((generateTimelineFromTopics (fun _ => "") [topicOne, topicZero]).topics).Perm
        [topicOne, topicZero] ∧
      ((generateTimelineFromTopics (fun _ => "") [topicOne, topicZero]).topics).Sorted
        (fun a b => lexLE a.startTime b.startTime) ∧
      (generateTimelineFromTopics (fun _ => "") [topicOne, topicZero]).topics =
        [topicOne, topicZero] := by
  have h := generateTimelineFromTopics_order (fun _ => "") [topicOne, topicZero]
  exact ⟨h.1, h.2.1 (by decide), h.2.2.2 (by decide) (by decide)⟩

/-- C8, confirmed: feeding the timeline builder a topic list already
sorted by its own ordering returns exactly that list — insertion into a
sorted list always takes the first branch, so the stable sort is the
identity on sorted input. -/
theorem buildTimeline_idempotent (gen : List MeetingTopic → String)
    (topics : List MeetingTopic) (h : topics.Sorted topicLE) :
    (generateTimelineFromTopics gen topics).topics = topics := by
  simp only [generateTimelineFromTopics, jsSortTopics]
  exact h.insertionSort_eq

/-- Witness for C8 at a concrete already-sorted list. -/
theorem buildTimeline_idempotent_witness :
    (generateTimelineFromTopics (fun _ => "md") [topicZero, topicOne]).topics =
      [topicZero, topicOne] :=
  buildTimeline_idempotent (fun _ => "md") [topicZero, topicOne] (by decide)

/-! ### Classification — `classifyText` (src/features/classification/domain.ts,
usecase and prompts).

`MeetingCategory` is the enum shared by classification/domain.ts and
job/domain.ts (textually identical). The Gemini call
`generateJson(prompt)` is the external boundary; it is a parameter
`oracle` returning `Except` (the `error` case models a raised
exception). `Math.random` inside `prepareTextSample`'s `random` branch
is modelled by the explicit parameter `rand` (the value of
`Math.floor(Math.random() * maxStartPos)`). -/

/-- JS `a.includes(b)` on strings. -/
def jsIncludes (s sub : String) : Bool :=
  containsSub s.data sub.data

/-- `parseMeetingCategory` (classification/domain.ts lines 58-71):
case-insensitive keyword containment, first match wins, `OTHER` as the
fallback. -/
def parseMeetingCategory (categoryStr : String) : MeetingCategory :=
  let normalizedCategory := categoryStr.toLower
  if jsIncludes normalizedCategory "internal" || jsIncludes normalizedCategory "business" then
    MeetingCategory.INTERNAL_MEETING
  else if jsIncludes normalizedCategory "small" || jsIncludes normalizedCategory "chat" then
    MeetingCategory.SMALL_TALK
  else if jsIncludes normalizedCategory "private" || jsIncludes normalizedCategory "personal" then
    MeetingCategory.PRIVATE
  else
    MeetingCategory.OTHER

/-- `ClassificationResult` (classification/domain.ts). -/
structure ClassificationResult where
  category : MeetingCategory
  reason : String
  rawText : Option String
  timestamp : String
deriving DecidableEq, Repr

/-- The `sampleMethod` union of `ClassificationOptions`; `endOfText`
renders the TS literal `'end'`. -/
inductive SampleMethod where
  | start
  | middle
  | endOfText
  | random
  | all
deriving DecidableEq, Repr

/-- `ClassificationOptions` (classification/domain.ts). -/
structure ClassificationOptions where
  maxTextLength : Option Int
  sampleMethod : Option SampleMethod
  minConfidence : Option Int
deriving DecidableEq, Repr

/-- JS `Math.ceil(a / b)` for integer operands (`b ≠ 0`). -/
def jsMathCeilDiv (a b : Int) : Int :=
  if 0 < b then (a + b - 1) / b else a / b

/-- `prepareTextSample` (classification/prompts.ts lines 13-55).
`maxLength` defaults through `||` (so an explicit `0` selects 8000) and
`sampleMethod` defaults to `'start'`. Divisions are `Math.floor` on
non-negative values, matching integer division in every branch that can
run; `rand` supplies the `random` branch's start offset. -/
def prepareTextSample (rand : Int) (fullText : String)
    (options : Option ClassificationOptions) : String :=
  let maxLength := jsOrDefault (options.bind ClassificationOptions.maxTextLength) 8000
  let sampleMethod := (options.bind ClassificationOptions.sampleMethod).getD SampleMethod.start
  let s := fullText.data
  let len : Int := s.length
  if len ≤ maxLength then fullText
  else
    match sampleMethod with
    | SampleMethod.start => String.mk (jsSubstring s 0 maxLength)
    | SampleMethod.endOfText => String.mk (jsSubstring s (len - maxLength) len)
    | SampleMethod.middle =>
      let startPos := (len - maxLength) / 2
      String.mk (jsSubstring s startPos (startPos + maxLength))
    | SampleMethod.random =>
      let randomStart := rand
      String.mk (jsSubstring s randomStart (randomStart + maxLength))
    | SampleMethod.all =>
      let totalChunks := jsMathCeilDiv len maxLength
      let chunkSize := len / totalChunks
      let sampleSize := min (chunkSize / 4) 500
      String.mk
        ((List.range totalChunks.toNat).foldl
          (fun acc i =>
            acc ++ jsSubstring s ((i : Int) * chunkSize) ((i : Int) * chunkSize + sampleSize) ++
              ('\n' :: '.' :: '.' :: '.' :: '\n' :: []))
          [])

/-- `generateClassifyMeetingPrompt` (classification/prompts.ts lines
62-93): the fixed classification prompt template around the sampled
text. -/
def generateClassifyMeetingPrompt (text : String) : String :=
  "あなたは会議の文字起こしデータを高精度で分類する専門AIです。\n以下の分類基準に従って、入力される会議テキストを分析してください。\n\n# 分類カテゴリーと判断基準\n\n## smallTalk\n- 業務に直接関係のない雑談\n- キーワード例: 週末の予定、天気、食事\n\n## internalMeeting\n- プロジェクト進捗や課題の共有\n- キーワード例: タスク、進捗、スケジュール\n\n## private\n- 個人的な相談や評価\n- キーワード例: 相談、キャリア、評価\n\n## other\n- 上記に分類できない場合\n\n# 出力形式\n必ず以下のJSON形式で出力し、余分なテキストは含めないでください：\n\x7b\n  \"category\": \"選択したカテゴリー\",\n  \"reason\": \"選択理由の簡潔な説明（100文字以内）\"\n\x7d\n\n文字起こしは以下です:\n" ++ text ++ "\n"

/-- The JSON shape requested from the external classifier. -/
structure GeminiCategoryReason where
  category : String
  reason : String
deriving DecidableEq, Repr

/-- `classifyText` (classification/usecase.ts lines 97-142): prepare
the sample, build the prompt, call the external classifier inside
`try`; on success map the reported category string through
`parseMeetingCategory`; on any raised error return the `OTHER` category
with the fixed explanatory reason. `now` models
`new Date().toISOString()`. -/
def classifyText (oracle : String → Except String GeminiCategoryReason) (rand : Int)
    (now : String) (text : String) (options : Option ClassificationOptions) :
    ClassificationResult :=
  let sampleText := prepareTextSample rand text options
  let prompt := generateClassifyMeetingPrompt sampleText
  match oracle prompt with
  | Except.ok result =>
    { category := parseMeetingCategory result.category
      reason := result.reason
      rawText := none
      timestamp := now }
  | Except.error _ =>
    { category := MeetingCategory.OTHER
      reason := "分類処理中にエラーが発生したためその他カテゴリとしました"
      rawText := none
      timestamp := now }

/-- C5, confirmed: whenever the external classification call raises,
`classifyText` swallows the error inside its local `try`/`catch` and
returns a result with category `OTHER` and a fixed non-empty reason —
the error is never propagated. -/
theorem classifyText_soft_failure (oracle : String → Except String GeminiCategoryReason)
    (rand : Int) (now : String) (text : String) (options : Option ClassificationOptions)
    (h : ∀ p, ∃ e, oracle p = Except.error e) :
    (classifyText oracle rand now text options).category = MeetingCategory.OTHER ∧
      (classifyText oracle rand now text options).reason ≠ "" := by
  obtain ⟨e, he⟩ :=
    h (generateClassifyMeetingPrompt (prepareTextSample rand text options))
  simp only [classifyText, he]
  constructor
  · trivial
  · decide

/-- Witness for C5 with an always-raising classifier. -/
theorem classifyText_soft_failure_witness :
    (classifyText (fun _ => Except.error "upstream down") 0 "2024-01-01T00:00:00Z"
          "hello" none).category = MeetingCategory.OTHER ∧
      (classifyText (fun _ => Except.error "upstream down") 0 "2024-01-01T00:00:00Z"
          "hello" none).reason ≠ "" :=
  classifyText_soft_failure (fun _ => Except.error "upstream down") 0 "2024-01-01T00:00:00Z"
    "hello" none (fun _ => ⟨"upstream down", rfl⟩)

/-! ### TranscriptSegmenter — `parseVttTranscript`
(src/features/transcript/format.ts, types in transcript/domain.ts).

Regex semantics are embedded as executable scanners. For the patterns
used by this file the JS engine's leftmost-match / greedy behaviour is
deterministic (greedy classes like `[^>]*` stop at the very character
the following literal requires), so each scanner tries every start
position left to right exactly as the engine does. -/

/-- `TranscriptEntry` (transcript/domain.ts). -/
structure TranscriptEntry where
  startTime : String
  endTime : String
  speaker : Option String
  text : String
deriving DecidableEq, Repr

/-- `TranscriptMetadata` (transcript/domain.ts). -/
structure TranscriptMetadata where
  meetingUuid : String
  meetingTopic : Option String
  meetingDate : Option String
  durationSeconds : Option Int
  speakerCount : Option Int
  speakers : Option (List String)
deriving DecidableEq, Repr

/-- `StructuredTranscript` (transcript/domain.ts). -/
structure StructuredTranscript where
  metadata : TranscriptMetadata
  entries : List TranscriptEntry
  rawText : String
deriving DecidableEq, Repr

/-- `VttParseOptions` (transcript/domain.ts); `none` models an absent
key, defaulted by the destructuring in `parseVttTranscript`. -/
structure VttParseOptions where
  extractSpeakers : Option Bool
  combineLines : Option Bool
  removeFiller : Option Bool
deriving DecidableEq, Repr

/-- `/^([^:]+):\s*(.*)/`: at least one non-colon character, the first
colon, optional whitespace, then the rest; yields both groups. -/
def colonSplit (s : List Char) : Option (List Char × List Char) :=
  let g1 := s.takeWhile (· ≠ ':')
  if g1 = [] then none
  else
    match s.dropWhile (· ≠ ':') with
    | ':' :: rest => some (g1, rest.dropWhile Char.isWhitespace)
    | _ => none

/-- One attempt of `/<v[^>]*>([^<]*)(<\/v>)?/i` at the current
position: `<v`, any non-`>` run, `>`, capture up to the next `<`, and —
when `requireClose` — a case-insensitive `</v>`. -/
def vTagHere (requireClose : Bool) (s : List Char) : Option (List Char) :=
  match s with
  | '<' :: c :: rest =>
    if c = 'v' ∨ c = 'V' then
      match rest.dropWhile (· ≠ '>') with
      | '>' :: afterTag =>
        let cap := afterTag.takeWhile (· ≠ '<')
        if requireClose then
          match afterTag.dropWhile (· ≠ '<') with
          | '<' :: '/' :: v2 :: '>' :: _ =>
            if v2 = 'v' ∨ v2 = 'V' then some cap else none
          | _ => none
        else some cap
      | _ => none
    else none
  | _ => none

/-- Leftmost match of the speaker-tag regex: try every start position. -/
def matchVTag (requireClose : Bool) : List Char → Option (List Char)
  | [] => none
  | x :: t =>
    match vTagHere requireClose (x :: t) with
    | some cap => some cap
    | none => matchVTag requireClose t

/-- `extractSpeaker` (format.ts lines 183-198): the `<v …>` patterns
first (`p2` only when `p1` has no match at all); a matched but empty
capture group is falsy and falls through to the `Name:` pattern; absent
everything, the empty string. -/
def extractSpeaker (line : List Char) : List Char :=
  let viaColon : List Char :=
    match colonSplit line with
    | some (g1, _) => jsTrim g1
    | none => []
  match matchVTag true line with
  | some cap => if cap ≠ [] then jsTrim cap else viaColon
  | none =>
    match matchVTag false line with
    | some cap => if cap ≠ [] then jsTrim cap else viaColon
    | none => viaColon

/-- Global removal of `/<[^>]*>/g`: each `<` with a later `>` deletes
through the first such `>`; a `<` with no closing `>` is kept. -/
def removeTags : List Char → List Char
  | [] => []
  | c :: rest =>
    if c = '<' then
      if (rest.dropWhile (· ≠ '>')).isEmpty then '<' :: removeTags rest
      else removeTags (rest.dropWhile (· ≠ '>')).tail
    else c :: removeTags rest
termination_by s => s.length
decreasing_by
  all_goals simp only [List.length_cons]
  all_goals try omega
  exact tail_dropWhile_lt _ _

/-- `extractCleanText` (format.ts lines 206-219): strip tags; when
`removeSpeaker` and the colon pattern matches with a non-empty rest,
keep only the rest; trim. -/
def extractCleanText (line : List Char) (removeSpeaker : Bool) : List Char :=
  let cleanText := removeTags line
  let cleanText2 :=
    if removeSpeaker then
      match colonSplit cleanText with
      | some (_, g2) => if g2 ≠ [] then g2 else cleanText
      | none => cleanText
    else cleanText
  jsTrim cleanText2

/-- `combineConsecutiveSpeakerLines`'s accumulator walk (format.ts
lines 325-351): `currentGroup` starts as a copy of the first entry of a
run; an entry with the same speaker is folded in (space-joined text,
later end time); a speaker change emits the group. -/
def combineLoop : Option TranscriptEntry → List TranscriptEntry → List TranscriptEntry
  | none, [] => []
  | some g, [] => [g]
  | none, e :: rest => combineLoop (some e) rest
  | some g, e :: rest =>
    if g.speaker ≠ e.speaker then g :: combineLoop (some e) rest
    else combineLoop (some { g with text := g.text ++ " " ++ e.text, endTime := e.endTime }) rest

/-- `combineConsecutiveSpeakerLines(entries)`. -/
def combineConsecutiveSpeakerLines (entries : List TranscriptEntry) : List TranscriptEntry :=
  combineLoop none entries

/-- JS regex `\w`: ASCII letters, digits, underscore (no unicode
flag). -/
def jsWordChar (c : Char) : Bool :=
  c.isAlphanum || c = '_'

/-- One filler regex of `removeFillerWords`: `\b`, literal segments
joined by `\s+` (only `you\s+know` has two), an optional `+` repetition
of the final character, and the `(?:\s|$|\b)` tail; `ci` is the `i`
flag. -/
structure FillerPattern where
  segs : List (List Char)
  repLast : Bool
  ci : Bool

/-- Case-insensitive character match when `ci`. -/
def matchCI (ci : Bool) (a b : Char) : Bool :=
  if ci then a.toLower = b.toLower else a = b

/-- Match a literal segment, returning the remainder. -/
def matchLit (ci : Bool) : List Char → List Char → Option (List Char)
  | [], s => some s
  | _ :: _, [] => none
  | l :: ls, c :: cs => if matchCI ci l c then matchLit ci ls cs else none

/-- `\s+`: at least one whitespace character, consumed greedily. -/
def eatWs : List Char → Option (List Char)
  | [] => none
  | c :: cs => if c.isWhitespace then some (cs.dropWhile Char.isWhitespace) else none

/-- Match the literal segments separated by `\s+`. -/
def matchSegsFrom (ci : Bool) : List (List Char) → List Char → Option (List Char)
  | [], s => some s
  | [seg], s => matchLit ci seg s
  | seg :: seg2 :: rest, s =>
    match matchLit ci seg s with
    | some s2 =>
      match eatWs s2 with
      | some s3 => matchSegsFrom ci (seg2 :: rest) s3
      | none => none
    | none => none

/-- Attempt one filler pattern at the current position (`prev` is the
original character just before it). Returns the last consumed original
character and the remainder after the match. Greedy matching without
backtracking is exact for these patterns: the repeated character is a
word character, so retracting repetitions can never create the `\b`,
`\s` or `$` the tail needs. -/
def fillerMatchHere (p : FillerPattern) (prev : Option Char) (s : List Char) :
    Option (Char × List Char) :=
  match p.segs with
  | [] => none
  | firstSeg :: _ =>
    match firstSeg with
    | [] => none
    | fc :: _ =>
      let headBoundary :=
        match prev with
        | none => jsWordChar fc
        | some pc => jsWordChar pc ≠ jsWordChar fc
      if headBoundary then
        match matchSegsFrom p.ci p.segs s with
        | some r1 =>
          let lastChar := ((p.segs.getLastD []).getLastD fc)
          let r2 := if p.repLast then r1.dropWhile (fun d => matchCI p.ci lastChar d) else r1
          match r2 with
          | [] => some (lastChar, [])
          | d :: rest =>
            if d.isWhitespace then some (d, rest)
            else if jsWordChar lastChar ≠ jsWordChar d then some (lastChar, d :: rest)
            else none
        | none => none
      else none

/-- Global replace of one filler pattern with a single space
(`text.replace(pattern, ' ')`): matches are located left to right in
the original text; every pattern starts with at least two literal
characters, so each successful match consumes at least one character
and a fuel of `length + 1` always suffices. -/
def replaceFillerLoop (p : FillerPattern) : Nat → Option Char → List Char → List Char
  | 0, _, _ => []
  | _ + 1, _, [] => []
  | fuel + 1, prev, c :: rest =>
    match fillerMatchHere p prev (c :: rest) with
    | some (lc, r) => ' ' :: replaceFillerLoop p fuel (some lc) r
    | none => c :: replaceFillerLoop p fuel (some c) rest

/-- `/\s+/g → ' '`: collapse whitespace runs to single spaces. -/
def collapseWs : List Char → List Char
  | [] => []
  | c :: t =>
    if c.isWhitespace then ' ' :: collapseWs (t.dropWhile Char.isWhitespace)
    else c :: collapseWs t
termination_by l => l.length
decreasing_by
  all_goals simp only [List.length_cons]
  all_goals try omega
  have := dropWhile_length_le Char.isWhitespace t
  omega

/-- A single-segment case-sensitive (Japanese) filler pattern. -/
def fillerJP (s : String) : FillerPattern :=
  { segs := [s.data], repLast := false, ci := false }

/-- A single-segment case-insensitive (English) filler pattern. -/
def fillerEN (s : String) : FillerPattern :=
  { segs := [s.data], repLast := false, ci := true }

/-- A case-insensitive pattern whose final character carries `+`. -/
def fillerENRep (s : String) : FillerPattern :=
  { segs := [s.data], repLast := true, ci := true }

/-- `[...fillerPatterns, ...redundantPatterns]` of `removeFillerWords`
(format.ts lines 360-387), in source order. -/
def fillerPatternList : List FillerPattern :=
  [fillerJP "あの", fillerJP "えーと", fillerJP "えっと", fillerJP "あー", fillerJP "まあ",
    fillerJP "うーん", fillerJP "その", fillerJP "なんか",
    fillerENRep "um", fillerENRep "uh", fillerENRep "ah",
    fillerEN "like",
    { segs := ["you".data, "know".data], repLast := false, ci := true },
    fillerEN "well", fillerEN "so", fillerEN "basically", fillerEN "actually",
    fillerEN "literally",
    fillerJP "あのですね", fillerJP "ということで", fillerJP "といいますか", fillerJP "というか"]

/-- `removeFillerWords(entries)` (format.ts lines 358-405): map over
the entries, fold the pattern replaces over each text, collapse
whitespace, trim. -/
def removeFillerWords (entries : List TranscriptEntry) : List TranscriptEntry :=
  entries.map fun entry =>
    let cleanedText :=
      fillerPatternList.foldl
        (fun txt p => replaceFillerLoop p (txt.length + 1) none txt) entry.text.data
    { entry with text := String.mk (jsTrim (collapseWs cleanedText)) }

/-- The in-progress entry of the scan (`currentEntry`,
`Partial<TranscriptEntry>`): `endTime` is absent when the timing line
had no ` --> ` separator piece. -/
structure PendingEntry where
  startTime : String
  endTime : Option String
  speaker : Option String
  text : String
deriving DecidableEq, Repr

/-- The mutable scan state of the entry loop: collected entries, the
speaker `Set` (insertion-ordered, deduplicated) and the open entry. -/
structure VttScanState where
  entries : List TranscriptEntry
  speakerSet : List String
  current : Option PendingEntry
deriving DecidableEq, Repr

/-- `speakerSet.add(s)`: a JS `Set` ignores duplicates and keeps
insertion order. -/
def addToSpeakerSet (set : List String) (s : String) : List String :=
  if s ∈ set then set else set ++ [s]

/-- Push `currentEntry` when `currentEntry?.text && currentEntry.startTime
&& currentEntry.endTime` — all three truthy (non-empty, and present for
`endTime`). -/
def pushPending (entries : List TranscriptEntry) (cur : Option PendingEntry) :
    List TranscriptEntry :=
  match cur with
  | none => entries
  | some c =>
    match c.endTime with
    | none => entries
    | some e =>
      if c.text ≠ "" ∧ c.startTime ≠ "" ∧ e ≠ "" then
        entries ++ [{ startTime := c.startTime, endTime := e, speaker := c.speaker,
                      text := c.text }]
      else entries

/-- One iteration of the entry loop (format.ts lines 253-292) on the
trimmed line: a timing line pushes the open entry and opens a new one
from `line.split(' --> ')`; a non-empty text line with an open entry
extracts the speaker once (`!currentEntry.speaker`: absent or empty)
into the entry and the speaker set, then appends the cleaned text with
a space join. -/
def processVttLine (extractSpeakersFlag : Bool) (st : VttScanState) (rawLine : List Char) :
    VttScanState :=
  let line := jsTrim rawLine
  if containsSub line ('-' :: '-' :: '>' :: []) then
    let entries := pushPending st.entries st.current
    let timeParts := splitOnLit ' ' ('-' :: '-' :: '>' :: ' ' :: []) line
    { entries := entries
      speakerSet := st.speakerSet
      current := some { startTime := String.mk (timeParts.headD [])
                        endTime := (timeParts[1]?).map String.mk
                        speaker := none
                        text := "" } }
  else if line ≠ [] then
    match st.current with
    | none => st
    | some cur =>
      let stepped :=
        if extractSpeakersFlag ∧ (cur.speaker = none ∨ cur.speaker = some "") then
          let speaker := extractSpeaker line
          if speaker ≠ [] then
            ({ cur with speaker := some (String.mk speaker) },
              addToSpeakerSet st.speakerSet (String.mk speaker))
          else (cur, st.speakerSet)
        else (cur, st.speakerSet)
      let cleanText := extractCleanText line true
      let cur3 :=
        if cleanText ≠ [] then
          if stepped.1.text ≠ "" then
            { stepped.1 with text := stepped.1.text ++ " " ++ String.mk cleanText }
          else { stepped.1 with text := String.mk cleanText }
        else stepped.1
      { entries := st.entries, speakerSet := stepped.2, current := some cur3 }
  else st

/-- The header skip and entry loop of `parseVttTranscript`: lines
before the first one containing `-->` are skipped (checked untrimmed),
then every remaining line is processed. -/
def collectVtt (extractSpeakersFlag : Bool) (vttContent : List Char) : VttScanState :=
  let lines := splitOnLit '\n' [] vttContent
  let body := lines.dropWhile (fun l => ¬ containsSub l ('-' :: '-' :: '>' :: []))
  body.foldl (processVttLine extractSpeakersFlag)
    { entries := [], speakerSet := [], current := none }

/-- The deduplicated speaker list collected for a given input and
options (the contents of the JS `Set` at the end of the loop). -/
def collectedSpeakers (vttContent : List Char) (options : VttParseOptions) : List String :=
  (collectVtt (options.extractSpeakers.getD true) vttContent).speakerSet

/-- `parseVttTranscript(vttContent, metadata, options)` (format.ts
lines 228-318). Destructuring defaults: `extractSpeakers = true,
combineLines = true, removeFiller = false`. The final assignments
`metadata.speakerCount = speakerSet.size; metadata.speakers =
Array.from(speakerSet)` mutate the caller's metadata object and return
it inside the result; the returned record's `metadata` field is that
updated object. -/
def parseVttTranscript (vttContent : List Char) (metadata : TranscriptMetadata)
    (options : VttParseOptions) : StructuredTranscript :=
  let combineLinesFlag := options.combineLines.getD true
  let removeFillerFlag := options.removeFiller.getD false
  let st := collectVtt (options.extractSpeakers.getD true) vttContent
  let entries := pushPending st.entries st.current
  let finalEntries :=
    if combineLinesFlag then combineConsecutiveSpeakerLines entries else entries
  let cleanedEntries :=
    if removeFillerFlag then removeFillerWords finalEntries else finalEntries
  let metadata2 :=
    { metadata with
        speakerCount := some (st.speakerSet.length : Int)
        speakers := some st.speakerSet }
  { metadata := metadata2
    entries := cleanedEntries
    rawText := String.mk (joinWith '\n' (cleanedEntries.map (fun e => e.text.data))) }

/-- C7, confirmed: a caption block producing two consecutive entries
with the identical speaker, combined with `combineLines = true`, yields
exactly one merged entry: text is the space-joined concatenation,
`endTime` comes from the second entry, `startTime` (and the speaker)
from the first. The combine step is a pure fold building new records
(`{...entry}` copies), never mutating its input. -/
theorem combineConsecutiveSpeakerLines_merges_pair (e1 e2 : TranscriptEntry)
    (h : e1.speaker = e2.speaker) :
    combineConsecutiveSpeakerLines [e1, e2] =
      [{ startTime := e1.startTime, endTime := e2.endTime, speaker := e1.speaker,
         text := e1.text ++ " " ++ e2.text }] := by
  simp [combineConsecutiveSpeakerLines, combineLoop, h]

/-- Witness for C7 on two concrete same-speaker entries. -/
theorem combineConsecutiveSpeakerLines_merges_pair_witness :
    combineConsecutiveSpeakerLines
        [{ startTime := "00:00:01.000", endTime := "00:00:03.000", speaker := some "Alice",
           text := "hello" },
         { startTime := "00:00:03.500", endTime := "00:00:05.000", speaker := some "Alice",
           text := "again" }] =
      [{ startTime := "00:00:01.000", endTime := "00:00:05.000", speaker := some "Alice",
         text := "hello again" }] :=
  combineConsecutiveSpeakerLines_merges_pair
    { startTime := "00:00:01.000", endTime := "00:00:03.000", speaker := some "Alice",
      text := "hello" }
    { startTime := "00:00:03.500", endTime := "00:00:05.000", speaker := some "Alice",
      text := "again" }
    rfl

lemma addToSpeakerSet_nodup {set : List String} {s : String} (h : set.Nodup) :
    (addToSpeakerSet set s).Nodup := by
  unfold addToSpeakerSet
  split_ifs with hmem
  · exact h
  · simp [List.nodup_append, h, hmem]

/-- Each loop step either keeps the speaker set or adds through the
`Set` insert. -/
lemma processVttLine_speakerSet (flag : Bool) (st : VttScanState) (line : List Char) :
    (processVttLine flag st line).speakerSet = st.speakerSet ∨
      ∃ s, (processVttLine flag st line).speakerSet = addToSpeakerSet st.speakerSet s := by
  simp only [processVttLine]
  by_cases h1 : containsSub (jsTrim line) ('-' :: '-' :: '>' :: []) = true
  · rw [if_pos h1]
    left; rfl
  · rw [if_neg h1]
    by_cases h2 : jsTrim line ≠ []
    · rw [if_pos h2]
      cases hcur : st.current with
      | none => left; rfl
      | some cur =>
        dsimp only
        by_cases h3 : flag = true ∧ (cur.speaker = none ∨ cur.speaker = some "")
        · rw [if_pos h3]
          by_cases h4 : extractSpeaker (jsTrim line) ≠ []
          · rw [if_pos h4]
            right
            exact ⟨String.mk (extractSpeaker (jsTrim line)), rfl⟩
          · rw [if_neg h4]
            left; rfl
        · rw [if_neg h3]
          left; rfl
    · rw [if_neg h2]
      left; rfl

lemma foldl_processVttLine_nodup (flag : Bool) :
    ∀ (lines : List (List Char)) (st : VttScanState), st.speakerSet.Nodup →
      ((lines.foldl (processVttLine flag) st).speakerSet).Nodup := by
  intro lines
  induction lines with
  | nil => intro st h; exact h
  | cons l rest ih =>
    intro st h
    rw [List.foldl_cons]
    apply ih
    rcases processVttLine_speakerSet flag st l with heq | ⟨s, heq⟩
    · rw [heq]; exact h
    · rw [heq]; exact addToSpeakerSet_nodup h

/-- C10, confirmed: `parseVttTranscript` writes exactly two fields into
the metadata object it was handed — `speakerCount` and `speakers` —
and returns that same updated object inside the result (the JS code
mutates the caller's object; in the pure embedding the result's
`metadata` is the input record updated at those two fields). The
speaker list is the deduplicated (`Nodup`) insertion-ordered contents
of the extraction `Set`, `speakerCount` is its size, so it always
equals the length of `speakers`, and `meetingUuid`, `meetingTopic`,
`meetingDate` and `durationSeconds` are returned unchanged. -/
theorem parseVttTranscript_metadata_effect (vttContent : List Char)
    (metadata : TranscriptMetadata) (options : VttParseOptions) :
    (parseVttTranscript vttContent metadata options).metadata =
        { metadata with
            speakerCount := some ((collectedSpeakers vttContent options).length : Int)
            speakers := some (collectedSpeakers vttContent options) } ∧
      (collectedSpeakers vttContent options).Nodup ∧
      (parseVttTranscript vttContent metadata options).metadata.speakerCount =
        some ((((parseVttTranscript vttContent metadata options).metadata.speakers.getD
          []).length : Int)) ∧
      (parseVttTranscript vttContent metadata options).metadata.meetingUuid =
        metadata.meetingUuid ∧
      (parseVttTranscript vttContent metadata options).metadata.meetingTopic =
        metadata.meetingTopic ∧
      (parseVttTranscript vttContent metadata options).metadata.meetingDate =
        metadata.meetingDate ∧
      (parseVttTranscript vttContent metadata options).metadata.durationSeconds =
        metadata.durationSeconds := by
  refine ⟨rfl, ?_, rfl, rfl, rfl, rfl, rfl⟩
  unfold collectedSpeakers collectVtt
  apply foldl_processVttLine_nodup
  exact List.nodup_nil

/-! ### GlobalSummaryParser — `parseGlobalSummary`
(src/features/summarization/usecase.ts lines 311-387). -/

/-- `/marker([^\n]+)/`: leftmost position where the literal marker is
followed by at least one non-newline character; captures the maximal
non-newline run. A marker occurrence followed directly by a newline or
the end fails there and the scan continues, exactly like the engine. -/
def captureAfterMarker (marker : List Char) : List Char → Option (List Char)
  | [] => none
  | x :: t =>
    if marker.isPrefixOf (x :: t) then
      let cap := ((x :: t).drop marker.length).takeWhile (· ≠ '\n')
      if cap = [] then captureAfterMarker marker t else some cap
    else captureAfterMarker marker t

/-- Remainder after the first line-start (`^` with the `m` flag)
occurrence of the literal marker; `atStart` is true at index 0 and
right after every newline. -/
def afterLineStartMarker (marker : List Char) : List Char → Bool → Option (List Char)
  | [], _ => none
  | x :: t, atStart =>
    if atStart ∧ marker.isPrefixOf (x :: t) then some ((x :: t).drop marker.length)
    else afterLineStartMarker marker t (x = '\n')

/-- Prefix before the first line-start occurrence of the literal
marker (or the whole text when absent). -/
def beforeLineStartMarker (marker : List Char) : List Char → Bool → List Char
  | [], _ => []
  | x :: t, atStart =>
    if atStart ∧ marker.isPrefixOf (x :: t) then []
    else x :: beforeLineStartMarker marker t (x = '\n')

/-- `markdown.split(/^marker/m)[1]?.split(/^##/m)[0] || ''`: the text
between the first line-start occurrence of the section heading and the
next line-start `##` (every later occurrence of the heading itself
starts with `##`, so cutting at the first `^##` is the same piece), or
empty when the heading is absent. -/
def sectionText (marker : List Char) (s : List Char) : List Char :=
  match afterLineStartMarker marker s true with
  | none => []
  | some rest => beforeLineStartMarker ('#' :: '#' :: []) rest true

/-- The trimmed lines of a section that carry a `- ` or `* ` bullet
marker. -/
def bulletLines (sectionBody : List Char) : List (List Char) :=
  ((splitOnLit '\n' [] sectionBody).map jsTrim).filter
    (fun l => ('-' :: ' ' :: []).isPrefixOf l || ('*' :: ' ' :: []).isPrefixOf l)

/-- Bullet lines with the two-character marker stripped and trimmed
(`line.substring(2).trim()`). -/
def bulletItems (sectionBody : List Char) : List (List Char) :=
  (bulletLines sectionBody).map (fun l => jsTrim (l.drop 2))

/-- One attempt of `/\[(.*?)\]/` at the current position: `[`, the
shortest run of non-newline characters, `]`. -/
def bracketHere (s : List Char) : Option (List Char) :=
  match s with
  | '[' :: rest =>
    let inner := rest.takeWhile (fun c => c ≠ ']' ∧ c ≠ '\n')
    match rest.dropWhile (fun c => c ≠ ']' ∧ c ≠ '\n') with
    | ']' :: _ => some inner
    | _ => none
  | _ => none

/-- Leftmost match of the assignee-bracket regex. -/
def bracketCapture : List Char → Option (List Char)
  | [] => none
  | x :: t =>
    match bracketHere (x :: t) with
    | some cap => some cap
    | none => bracketCapture t

/-- JS `String.prototype.toLowerCase` (ASCII case mapping; identity on
the Japanese keywords involved). -/
def jsToLower (s : String) : String :=
  String.mk (s.data.map Char.toLower)

/-- The `'high' | 'medium' | 'low'` priority literal type. -/
inductive ActionPriority where
  | high
  | medium
  | low
deriving DecidableEq, Repr

/-- `ActionItem` (summarization/domain.ts), as the parser builds it:
`priority` always set, `dueDate` explicitly `undefined`. -/
structure ActionItem where
  task : String
  assignee : Option String
  priority : ActionPriority
  dueDate : Option String
deriving DecidableEq, Repr

/-- The keyword classification of an action's priority (usecase.ts
lines 356-367): high keywords first, then low, default medium. -/
def actionPriority (actionText : String) : ActionPriority :=
  let lower := jsToLower actionText
  if jsIncludes lower "高" || jsIncludes lower "重要" || jsIncludes lower "urgent" ||
      jsIncludes lower "high" then
    ActionPriority.high
  else if jsIncludes lower "低" || jsIncludes lower "minor" || jsIncludes lower "low" then
    ActionPriority.low
  else
    ActionPriority.medium

/-- `GlobalSummary` (summarization/domain.ts). -/
structure GlobalSummary where
  purpose : String
  participants : List String
  date : String
  location : String
  summary : String
  decisions : List String
  actionItems : List ActionItem
  rawMarkdown : String
deriving DecidableEq, Repr

/-- `parseGlobalSummary(summaryMarkdown)` (usecase.ts lines 311-387):
pure, total, best-effort extraction. Inline markers capture one line
(`不明` defaults for purpose/participants/date, `オンライン` for
location); `##`-headed sections yield bullet lists or the trimmed body;
absent markers yield the defaults rather than an error. -/
def parseGlobalSummary (summaryMarkdown : String) : GlobalSummary :=
  let s := summaryMarkdown.data
  let purpose :=
    match captureAfterMarker "ミーティングの目的:".data s with
    | some cap => String.mk (jsTrim cap)
    | none => "不明"
  let participantsText :=
    match captureAfterMarker "参加者:".data s with
    | some cap => String.mk (jsTrim cap)
    | none => "不明"
  let participants :=
    ((splitOnLit ',' [] participantsText.data).map (fun p => String.mk (jsTrim p))).filter
      (fun p => decide (p ≠ "" ∧ p ≠ "不明"))
  let date :=
    match captureAfterMarker "日時:".data s with
    | some cap => String.mk (jsTrim cap)
    | none => "不明"
  let location :=
    match captureAfterMarker "場所:".data s with
    | some cap => String.mk (jsTrim cap)
    | none => "オンライン"
  let decisions := (bulletItems (sectionText "## 決まったこと".data s)).map String.mk
  let summary := String.mk (jsTrim (sectionText "## サマリ".data s))
  let actionItems :=
    (bulletItems (sectionText "## ネクストアクション".data s)).map fun actionChars =>
      let actionText := String.mk actionChars
      { task := actionText
        assignee := (bracketCapture actionChars).map String.mk
        priority := actionPriority actionText
        dueDate := none }
  { purpose := purpose
    participants := participants
    date := date
    location := location
    summary := summary
    decisions := decisions
    actionItems := actionItems
    rawMarkdown := summaryMarkdown }

/-- C9, confirmed: `parseGlobalSummary` is a total function on every
markdown string (by construction in this embedding — the source has no
throwing operation), and every absent section marker yields its default
instead of an error: purpose and date default to `"不明"` (unknown),
location to `"オンライン"`, and the decisions, summary and action-item
sections to empty results. Every returned decision comes from a bullet
line of the decisions section with its leading `"- "` or `"* "` marker
stripped (and re-trimmed). -/
theorem parseGlobalSummary_total_defaults (md : String) :
    (captureAfterMarker "ミーティングの目的:".data md.data = none →
        (parseGlobalSummary md).purpose = "不明") ∧
      (captureAfterMarker "日時:".data md.data = none →
        (parseGlobalSummary md).date = "不明") ∧
      (captureAfterMarker "場所:".data md.data = none →
        (parseGlobalSummary md).location = "オンライン") ∧
      (afterLineStartMarker "## 決まったこと".data md.data true = none →
        (parseGlobalSummary md).decisions = []) ∧
      (afterLineStartMarker "## サマリ".data md.data true = none →
        (parseGlobalSummary md).summary = "") ∧
      (afterLineStartMarker "## ネクストアクション".data md.data true = none →
        (parseGlobalSummary md).actionItems = []) ∧
      (∀ d ∈ (parseGlobalSummary md).decisions,
        ∃ rawLine ∈ splitOnLit '\n' [] (sectionText "## 決まったこと".data md.data),
          (('-' :: ' ' :: []).isPrefixOf (jsTrim rawLine) ||
              ('*' :: ' ' :: []).isPrefixOf (jsTrim rawLine)) = true ∧
            d = String.mk (jsTrim ((jsTrim rawLine).drop 2))) := by
  refine ⟨?_, ?_, ?_, ?_, ?_, ?_, ?_⟩
  · intro h; simp only [parseGlobalSummary, h]
  · intro h; simp only [parseGlobalSummary, h]
  · intro h; simp only [parseGlobalSummary, h]
  · intro h
    simp only [parseGlobalSummary, bulletItems, bulletLines, sectionText, h]
    rfl
  · intro h
    simp only [parseGlobalSummary, sectionText, h]
    rfl
  · intro h
    simp only [parseGlobalSummary, bulletItems, bulletLines, sectionText, h]
    rfl
  · intro d hd
    have hd' : d ∈ ((bulletLines (sectionText "## 決まったこと".data md.data)).map
        (fun l => jsTrim (l.drop 2))).map String.mk := hd
    obtain ⟨l2, hl2, rfl⟩ := List.mem_map.mp hd'
    obtain ⟨l, hlmem, rfl⟩ := List.mem_map.mp hl2
    have hfil := List.mem_filter.mp hlmem
    obtain ⟨raw, hraw, rfl⟩ := List.mem_map.mp hfil.1
    exact ⟨raw, hraw, hfil.2, rfl⟩

/-- Witness for C9 on a concrete markdown having only a decisions
section: defaults fire for the absent markers, and the two returned
decisions are the bullet-stripped lines. -/
theorem parseGlobalSummary_total_defaults_witness :
    (parseGlobalSummary "## 決まったこと\n- A案を採用\n* B案は保留\n").purpose = "不明" ∧
      (parseGlobalSummary "## 決まったこと\n- A案を採用\n* B案は保留\n").location =
        "オンライン" ∧
      (parseGlobalSummary "## 決まったこと\n- A案を採用\n* B案は保留\n").decisions =
        ["A案を採用", "B案は保留"] :=
  ⟨(parseGlobalSummary_total_defaults "## 決まったこと\n- A案を採用\n* B案は保留\n").1 rfl,
    (parseGlobalSummary_total_defaults "## 決まったこと\n- A案を採用\n* B案は保留\n").2.2.1 rfl,
    rfl⟩
